import Mathlib

/-
Shallow embedding of src/pyade/lshade.py (the L-SHADE generation controller).

Conventions of the embedding:
* Python floats are modelled as rationals; randomness (memory-index choices,
  Normal and Cauchy draws, random.sample) is supplied by explicit oracle
  arguments, so every function is a deterministic function of its oracles.
* NumPy NaN is modelled only where it can actually reach a stored value:
  entries of the F-memory are `Option ℚ`, with `none` standing for NaN
  (the source guards `m_cr` against NaN but not `m_f`).
* Python `round` is banker rounding, modelled by `pyRound`; Python slicing
  with a possibly negative bound is modelled by `pySlice`.
-/

/-- Python integer-or-float-or-None value, used where the source branches on
the dynamic type of an argument (`isinstance`, `type(...)`). -/
inductive PyVal where
  | none : PyVal
  | int : ℤ → PyVal
  | float : ℚ → PyVal
deriving DecidableEq

/-- Python exception kinds raised by the argument checks in `apply`. -/
inductive PyErr where
  | typeError : PyErr
  | valueError : PyErr
deriving DecidableEq

/-- Python `round`: round half to even (banker rounding). -/
def pyRound (q : ℚ) : ℤ :=
  let fl := ⌊q⌋
  let r := q - fl
  if r < 1/2 then fl
  else if 1/2 < r then fl + 1
  else if fl % 2 = 0 then fl else fl + 1

/-- Python slice `l[:n]` where `n` may be negative (as `np.argsort(...)[:n]`
behaves in the source when the computed population size is negative). -/
def pySlice {α : Type} (n : ℤ) (l : List α) : List α :=
  if 0 ≤ n then l.take n.toNat else l.take (l.length - (-n).toNat)

/-- `f[f > 1] = 0` applied to the initial vector of Cauchy draws
(lshade.py line 119). -/
def initF (draws : List ℚ) : List ℚ :=
  draws.map (fun x => if 1 < x then 0 else x)

/-- One pass of `f[f <= 0] = scipy.stats.cauchy.rvs(...)` (line 123): each
non-positive entry is replaced by the next fresh draw from the oracle stream
`g`; the cursor of consumed draws is threaded through. -/
def fillInvalid (g : ℕ → ℚ) : List ℚ → ℕ → List ℚ × ℕ
  | [], c => ([], c)
  | x :: xs, c =>
    if x ≤ 0 then
      let p := fillInvalid g xs (c + 1)
      (g c :: p.1, p.2)
    else
      let p := fillInvalid g xs c
      (x :: p.1, p.2)

/-- `sum(f <= 0) == 0`, the (negated) guard of the while loop at line 121. -/
def allPos (f : List ℚ) : Bool :=
  f.all (fun x => decide (0 < x))

/-- The `while sum(f <= 0) != 0` resampling loop (lines 121-123).  The source
loop has no iteration cap; the `fuel` argument is only the depth up to which
we observe it, `none` meaning the loop is still running after `fuel`
iterations.  Note the loop body does not re-apply the `f > 1` rejection of
line 119 to freshly drawn values. -/
def loopF (g : ℕ → ℚ) : ℕ → List ℚ → ℕ → Option (List ℚ)
  | 0, f, _ => if allPos f then some f else none
  | fuel + 1, f, c =>
    if allPos f then some f
    else
      let p := fillInvalid g f c
      loopF g fuel p.1 p.2

/-- The full F-sampling step (lines 118-123): raw Cauchy draws `draws`, the
`f > 1` zeroing, then the resample loop drawing from the oracle `g`. -/
def sampleF (g : ℕ → ℚ) (draws : List ℚ) (fuel : ℕ) : Option (List ℚ) :=
  loopF g fuel (initF draws) 0

/-- `np.sum(weights * x)` for two parallel lists. -/
def wsum (w x : List ℚ) : ℚ :=
  (List.zipWith (fun a b => a * b) w x).sum

/-- `np.sum(weights * x ** 2)` for two parallel lists. -/
def wsumSq (w x : List ℚ) : ℚ :=
  (List.zipWith (fun a b => a * b ^ 2) w x).sum

/-- `weights = np.abs(fitness[indexes] - c_fitness[indexes]); weights /= np.sum(weights)`
(lines 142-143).  In the all-zero case Python produces NaN weights; in ℚ the
division by zero yields 0, and the downstream guards reproduce exactly the
values the source stores (see `updateMemory`). -/
def lehmerWeights (fit cfit : List ℚ) (idxs : List ℕ) : List ℚ :=
  let deltas := idxs.map (fun i => |fit.getD i 0 - cfit.getD i 0|)
  deltas.map (fun d => d / deltas.sum)

/-- The success-history memory update (lines 142-147).  `m_cr[k]` gets the
weighted Lehmer mean of the successful CR values with the explicit
`np.isnan` guard substituting 1 (in the reachable domain — nonnegative
deltas and CR values — Python yields NaN exactly when the ℚ denominator
here is 0, including the NaN-weights case `sum(deltas) = 0`).  `m_f[k]` gets
the unguarded weighted Lehmer mean of the successful F values; `none`
models the NaN the source stores when the weights are degenerate. -/
def updateMemory (fit cfit : List ℚ) (idxs : List ℕ) (cr f : List ℚ)
    (m_cr : List ℚ) (m_f : List (Option ℚ)) (k : ℕ) :
    List ℚ × List (Option ℚ) :=
  let deltaSum := (idxs.map (fun i => |fit.getD i 0 - cfit.getD i 0|)).sum
  let w := lehmerWeights fit cfit idxs
  let crS := idxs.map (fun i => cr.getD i 0)
  let fS := idxs.map (fun i => f.getD i 0)
  let mcrNew := if wsum w crS = 0 then 1 else wsumSq w crS / wsum w crS
  let mfNew : Option ℚ :=
    if deltaSum = 0 ∨ wsum w fS = 0 then none
    else some (wsumSq w fS / wsum w fS)
  (m_cr.set k mcrNew, m_f.set k mfNew)

/-- `fitness[indexes] = c_fitness[indexes]` (line 152). -/
def writeBack (fit cfit : List ℚ) (idxs : List ℕ) : List ℚ :=
  (List.range fit.length).map (fun i => if i ∈ idxs then cfit.getD i 0 else fit.getD i 0)

/-- Stable insertion of index `i` into an index list already sorted by
fitness, used to model `np.argsort(fitness)`. -/
def insertArg (fit : List ℚ) (i : ℕ) : List ℕ → List ℕ
  | [] => [i]
  | j :: js => if fit.getD i 0 < fit.getD j 0 then i :: j :: js else j :: insertArg fit i js

/-- `np.argsort(fitness)`: indices of the fitness array in ascending fitness
order (an insertion sort; the claims below depend only on its length). -/
def argsort (fit : List ℚ) : List ℕ :=
  (List.range fit.length).foldr (insertArg fit) []

/-- `round((4 - init_size) / max_evals * num_evals + init_size)`
(lines 102 and 154), the linear population-size schedule. -/
def targetSize (init_size : ℤ) (max_evals num_evals : ℕ) : ℤ :=
  pyRound ((4 - (init_size : ℚ)) / (max_evals : ℚ) * (num_evals : ℚ) + (init_size : ℚ))

/-- Controller state entering the post-selection block of one generation
(lines 136-161).  `population` and `indexes` are the values returned by
`pyade.commons.selection`, so `population` is the post-selection array and
`fitness` is still the pre-write-back parent fitness; `num_evals` has
already been incremented by line 131. -/
structure AdaptState where
  population : List (List ℚ)
  fitness : List ℚ
  c_fitness : List ℚ
  indexes : List ℕ
  cr : List ℚ
  f : List ℚ
  archive : List (List ℚ)
  m_cr : List ℚ
  m_f : List (Option ℚ)
  k : ℕ
  population_size : ℤ
  init_size : ℤ
  memory_size : ℕ
  num_evals : ℕ
  max_evals : ℕ
deriving DecidableEq

/-- Lines 136-161 of lshade.py: archive extension with `population[indexes]`
(the post-selection array), capacity enforcement and memory update only when
the success set is non-empty, fitness write-back, the linear shrink, and the
`if k == init_size: k = 0` guard.  `sample` is the oracle for
`random.sample(archive, population_size)`. -/
def adaptStep (sample : List (List ℚ) → ℕ → List (List ℚ)) (s : AdaptState) :
    AdaptState :=
  let archive1 := s.archive ++ s.indexes.map (fun i => s.population.getD i [])
  let archiveNew :=
    if 0 < s.indexes.length then
      if s.population_size < (archive1.length : ℤ) then
        sample archive1 s.population_size.toNat
      else archive1
    else archive1
  let mem := updateMemory s.fitness s.c_fitness s.indexes s.cr s.f s.m_cr s.m_f s.k
  let m_crNew := if 0 < s.indexes.length then mem.1 else s.m_cr
  let m_fNew := if 0 < s.indexes.length then mem.2 else s.m_f
  let k1 :=
    if 0 < s.indexes.length then
      if s.k + 1 = s.memory_size then 0 else s.k + 1
    else s.k
  let fitness1 := writeBack s.fitness s.c_fitness s.indexes
  let tgt := targetSize s.init_size s.max_evals s.num_evals
  if tgt < s.population_size then
    let bestIdx := pySlice tgt (argsort fitness1)
    ⟨bestIdx.map (fun i => s.population.getD i []),
     bestIdx.map (fun i => fitness1.getD i 0),
     s.c_fitness, s.indexes, s.cr, s.f,
     archiveNew, m_crNew, m_fNew,
     if (k1 : ℤ) = s.init_size then 0 else k1,
     tgt, s.init_size, s.memory_size, s.num_evals, s.max_evals⟩
  else
    ⟨s.population, fitness1, s.c_fitness, s.indexes, s.cr, s.f,
     archiveNew, m_crNew, m_fNew, k1,
     s.population_size, s.init_size, s.memory_size, s.num_evals, s.max_evals⟩

/-- `isinstance(x, float)` for the modelled dynamic values. -/
def isFloat : PyVal → Bool
  | PyVal.float _ => true
  | _ => false

/-- The numeric value of a float `PyVal` (only consulted under `isFloat`). -/
def floatVal : PyVal → ℚ
  | PyVal.float q => q
  | _ => 0

/-- Convergence-monitor state of the generation loop: the evaluation counter,
`converge_countdown`, `best_fitness`, and the generation index (used to
address the oracles). -/
structure ConvState where
  numEvals : ℕ
  countdown : ℤ
  best : ℚ
  gen : ℕ
deriving DecidableEq

/-- One generation as seen by the convergence monitor (lines 131 and
166-171): the evaluation counter grows by the population size `inc`, the
countdown is decremented exactly when `precision` is a Python float and
`|np.min(fitness) - best_fitness| < precision` with the pre-update
`best_fitness`, and only afterwards is `best_fitness` lowered. -/
def convStep (p : PyVal) (minF : ℚ) (inc : ℕ) (s : ConvState) : ConvState :=
  ⟨s.numEvals + inc,
   if isFloat p = true ∧ |minF - s.best| < floatVal p then s.countdown - 1 else s.countdown,
   if minF < s.best then minF else s.best,
   s.gen + 1⟩

/-- The generation loop guard and iteration (line 112):
`while num_evals < max_evals and converge_countdown > 0`.  `g` supplies the
per-generation minimum fitness and `inc` the per-generation evaluation
count; `fuel` bounds the observation depth only. -/
def convRun (p : PyVal) (g : ℕ → ℚ) (inc : ℕ → ℕ) (me : ℕ) :
    ℕ → ConvState → ConvState
  | 0, s => s
  | fuel + 1, s =>
    if s.numEvals < me ∧ 0 < s.countdown then
      convRun p g inc me fuel (convStep p (g s.gen) (inc s.gen) s)
    else s

/-- Python `x <= 0` on a dynamic value: comparing `None` with an integer
raises a TypeError. -/
def pyLeZero : PyVal → Except PyErr Bool
  | PyVal.none => Except.error PyErr.typeError
  | PyVal.int n => Except.ok (decide (n ≤ 0))
  | PyVal.float q => Except.ok (decide (q ≤ 0))

/-- Lines 69-70 of lshade.py:
`if type(max_evals_after_converge) is not None and max_evals_after_converge <= 0: raise ValueError`.
`type(x)` is never `None`, so the first conjunct is always `True` and the
comparison `x <= 0` is evaluated for every input, raising `TypeError` when
`x` is `None`. -/
def checkMaxEvalsAfterConverge (x : PyVal) : Except PyErr Unit :=
  match pyLeZero x with
  | Except.error e => Except.error e
  | Except.ok b => if b then Except.error PyErr.valueError else Except.ok ()

/-- Lines 107-111: `converge_countdown` is the argument when it is a positive
`int`, otherwise the default `2 * individual_size` from
`get_default_params`. -/
def initCountdown (x : PyVal) (individual_size : ℕ) : ℤ :=
  match x with
  | PyVal.int n => if 0 < n then n else 2 * (individual_size : ℤ)
  | _ => 2 * (individual_size : ℤ)

/-- Modelled from the spec: `pyade.commons.selection` is not under src/;
per §6 the selector performs elementwise minimization, the trial replacing
the parent at index `i` when `c_fitness[i] ≤ fitness[i]`, and returns the
new population together with the success index set. -/
def selection (population trials : List (List ℚ)) (fit cfit : List ℚ) :
    List (List ℚ) × List ℕ :=
  ((List.range population.length).map
     (fun i => if cfit.getD i 0 ≤ fit.getD i 0 then trials.getD i [] else population.getD i []),
   (List.range population.length).filter (fun i => decide (cfit.getD i 0 ≤ fit.getD i 0)))

/-- Line 132-136 composed: the vectors the generation appends to the archive,
namely `population[indexes]` evaluated on the array *returned by* selection. -/
def archivedThisGen (population trials : List (List ℚ)) (fit cfit : List ℚ) :
    List (List ℚ) :=
  let sel := selection population trials fit cfit
  sel.2.map (fun i => sel.1.getD i [])

/-- Deterministic instance of the `random.sample(archive, n)` oracle used by
the concrete evaluations below: keep the first `n` elements (like
`random.sample`, it returns `n` of the elements when `n ≤ len`). -/
def takeSample (l : List (List ℚ)) (n : ℕ) : List (List ℚ) :=
  l.take n

/-- End state of generation 1 of a run with `population_size = init_size = 10`
and `max_evals = 11`, with no successful trial: `num_evals` is `10 + 10 = 20`,
past the budget, so the schedule extrapolates below 4. -/
def stateC6 : AdaptState :=
  ⟨[[0],[0],[0],[0],[0],[0],[0],[0],[0],[0]], [0,0,0,0,0,0,0,0,0,0],
   [0,0,0,0,0,0,0,0,0,0], [], [0,0,0,0,0,0,0,0,0,0], [0,0,0,0,0,0,0,0,0,0], [],
   [1,1,1,1,1,1], [some 1, some 1, some 1, some 1, some 1, some 1], 0,
   10, 10, 6, 20, 11⟩

/-- A small mid-run state with the budget not yet consumed, used to
instantiate the amended population-size bound. -/
def stateC6w : AdaptState :=
  ⟨[[0]], [0], [0], [], [0], [0], [], [1], [some 1], 0, 10, 10, 6, 50, 100⟩

/-- Mid-run state of a run with `init_size = 5`, `max_evals = 100`: the
archive holds 5 vectors (its capacity at the previous successful
generation), this generation has no success, and `num_evals = 60` shrinks
the population from 5 to 4 without touching the archive. -/
def stateC3 : AdaptState :=
  ⟨[[0],[0],[0],[0],[0]], [0,0,0,0,0], [0,0,0,0,0], [], [0,0,0,0,0], [0,0,0,0,0],
   [[0],[0],[0],[0],[0]], [1,1,1,1,1,1], [some 1, some 1, some 1, some 1, some 1, some 1], 0,
   5, 5, 6, 60, 100⟩

/-- A one-individual state with a successful trial, used to instantiate the
amended archive bound. -/
def stateC3w : AdaptState :=
  ⟨[[1]], [5], [3], [0], [0], [1], [[0]], [1], [some 1], 0, 3, 3, 6, 10, 100⟩

/-- Mid-run state of a run with `init_size = 5` and `memory_size = 10`: after
five successful generations the cursor is `k = 5 = init_size`; this
generation has an empty success set but `num_evals = 60` triggers a shrink,
and the `if k == init_size` guard resets the cursor. -/
def stateC7 : AdaptState :=
  ⟨[[0],[0],[0],[0],[0]], [0,0,0,0,0], [0,0,0,0,0], [], [0,0,0,0,0], [0,0,0,0,0],
   [], [1,1,1,1,1,1,1,1,1,1],
   [some 1, some 1, some 1, some 1, some 1, some 1, some 1, some 1, some 1, some 1], 5,
   5, 5, 10, 60, 100⟩

/-- A small state with an empty success set and a cursor away from
`init_size`, used to instantiate the amended frame property. -/
def stateC7w : AdaptState :=
  ⟨[[0]], [0], [0], [], [0], [0], [], [1], [some 1], 2, 5, 5, 6, 50, 100⟩

/-! Helper lemmas. -/

theorem getD_prop {P : ℚ → Prop} (l : List ℚ) (i : ℕ) (hl : ∀ x ∈ l, P x)
    (h0 : P 0) : P (l.getD i 0) := by
  by_cases h : i < l.length
  · rw [List.getD_eq_getElem l 0 h]
    exact hl _ (List.getElem_mem h)
  · rw [List.getD_eq_default l 0 (le_of_not_lt h)]
    exact h0

theorem getD_opt_prop {P : ℚ → Prop} (l : List (Option ℚ)) (i : ℕ)
    (hl : ∀ o ∈ l, ∀ q, o = some q → P q) (q : ℚ)
    (h : l.getD i none = some q) : P q := by
  by_cases hi : i < l.length
  · rw [List.getD_eq_getElem l none hi] at h
    exact hl _ (List.getElem_mem hi) q h
  · rw [List.getD_eq_default l none (le_of_not_lt hi)] at h
    cases h

theorem wsum_nonneg (w : List ℚ) :
    ∀ x : List ℚ, (∀ a ∈ w, 0 ≤ a) → (∀ b ∈ x, 0 ≤ b) → 0 ≤ wsum w x := by
  induction w with
  | nil =>
    intro x _ _
    simp [wsum]
  | cons a w ih =>
    intro x hw hx
    cases x with
    | nil => simp [wsum]
    | cons b x =>
      have h1 : 0 ≤ a * b :=
        mul_nonneg (hw a (by simp)) (hx b (by simp))
      have h2 : 0 ≤ wsum w x :=
        ih x (fun c hc => hw c (List.mem_cons_of_mem a hc))
          (fun c hc => hx c (List.mem_cons_of_mem b hc))
      simpa [wsum] using add_nonneg h1 h2

theorem wsumSq_nonneg (w : List ℚ) :
    ∀ x : List ℚ, (∀ a ∈ w, 0 ≤ a) → 0 ≤ wsumSq w x := by
  induction w with
  | nil =>
    intro x _
    simp [wsumSq]
  | cons a w ih =>
    intro x hw
    cases x with
    | nil => simp [wsumSq]
    | cons b x =>
      have h1 : 0 ≤ a * b ^ 2 := mul_nonneg (hw a (by simp)) (sq_nonneg b)
      have h2 : 0 ≤ wsumSq w x := ih x (fun c hc => hw c (List.mem_cons_of_mem a hc))
      simpa [wsumSq] using add_nonneg h1 h2

theorem wsumSq_le_mul (w : List ℚ) (B : ℚ) :
    ∀ x : List ℚ, (∀ a ∈ w, 0 ≤ a) → (∀ b ∈ x, 0 ≤ b ∧ b ≤ B) →
      wsumSq w x ≤ B * wsum w x := by
  induction w with
  | nil =>
    intro x _ _
    simp [wsum, wsumSq]
  | cons a w ih =>
    intro x hw hx
    cases x with
    | nil => simp [wsum, wsumSq]
    | cons b x =>
      have ha : 0 ≤ a := hw a (by simp)
      have hb : 0 ≤ b ∧ b ≤ B := hx b (by simp)
      have h1 : a * b ^ 2 ≤ B * (a * b) := by nlinarith [mul_nonneg ha hb.1]
      have h2 : wsumSq w x ≤ B * wsum w x :=
        ih x (fun c hc => hw c (List.mem_cons_of_mem a hc))
          (fun c hc => hx c (List.mem_cons_of_mem b hc))
      have e1 : wsumSq (a :: w) (b :: x) = a * b ^ 2 + wsumSq w x := by
        simp [wsumSq]
      have e2 : wsum (a :: w) (b :: x) = a * b + wsum w x := by
        simp [wsum]
      rw [e1, e2]
      nlinarith

theorem lehmerWeights_nonneg (fit cfit : List ℚ) (idxs : List ℕ) :
    ∀ a ∈ lehmerWeights fit cfit idxs, 0 ≤ a := by
  intro a ha
  unfold lehmerWeights at ha
  rcases List.mem_map.mp ha with ⟨d, hd, rfl⟩
  rcases List.mem_map.mp hd with ⟨i, _, rfl⟩
  apply div_nonneg (abs_nonneg _)
  apply List.sum_nonneg
  intro y hy
  rcases List.mem_map.mp hy with ⟨j, _, rfl⟩
  exact abs_nonneg _

theorem lehmer_bound (w x : List ℚ) (B : ℚ) (hw : ∀ a ∈ w, 0 ≤ a)
    (hx : ∀ b ∈ x, 0 ≤ b ∧ b ≤ B) (hden : wsum w x ≠ 0) :
    0 ≤ wsumSq w x / wsum w x ∧ wsumSq w x / wsum w x ≤ B := by
  have hpos : 0 < wsum w x :=
    lt_of_le_of_ne (wsum_nonneg w x hw (fun b hb => (hx b hb).1)) (Ne.symm hden)
  constructor
  · exact div_nonneg (wsumSq_nonneg w x hw) hpos.le
  · rw [div_le_iff₀ hpos]
    calc wsumSq w x ≤ B * wsum w x := wsumSq_le_mul w B x hw hx
    _ = B * wsum w x := by ring

theorem floor_le_pyRound (q : ℚ) : ⌊q⌋ ≤ pyRound q := by
  unfold pyRound
  dsimp only
  split_ifs <;> omega

theorem le_pyRound_of_le (n : ℤ) (q : ℚ) (h : (n : ℚ) ≤ q) : n ≤ pyRound q :=
  le_trans (Int.le_floor.mpr h) (floor_le_pyRound q)

theorem targetSize_ge_four (init_size : ℤ) (max_evals num_evals : ℕ)
    (hI : 4 ≤ init_size) (hme : 0 < max_evals) (hne : num_evals ≤ max_evals) :
    4 ≤ targetSize init_size max_evals num_evals := by
  unfold targetSize
  apply le_pyRound_of_le
  have hE : (0 : ℚ) < (max_evals : ℚ) := by exact_mod_cast hme
  have hnE : (num_evals : ℚ) ≤ (max_evals : ℚ) := by exact_mod_cast hne
  have hI4 : (4 : ℚ) ≤ (init_size : ℚ) := by exact_mod_cast hI
  have key : (4 - (init_size : ℚ)) / (max_evals : ℚ) * (num_evals : ℚ) + (init_size : ℚ) - 4
      = ((init_size : ℚ) - 4) * ((max_evals : ℚ) - (num_evals : ℚ)) / (max_evals : ℚ) := by
    field_simp
    ring
  have hnn : 0 ≤ ((init_size : ℚ) - 4) * ((max_evals : ℚ) - (num_evals : ℚ)) / (max_evals : ℚ) :=
    div_nonneg (mul_nonneg (by linarith) (by linarith)) hE.le
  push_cast
  linarith [key ▸ hnn]

theorem allPos_iff (f : List ℚ) : allPos f = true ↔ ∀ x ∈ f, 0 < x := by
  simp [allPos]

theorem loopF_pos (g : ℕ → ℚ) (fuel : ℕ) :
    ∀ (f : List ℚ) (c : ℕ) (fs : List ℚ), loopF g fuel f c = some fs →
      ∀ x ∈ fs, 0 < x := by
  induction fuel with
  | zero =>
    intro f c fs h
    unfold loopF at h
    by_cases hp : allPos f
    · rw [if_pos hp] at h
      cases h
      exact (allPos_iff f).mp hp
    · rw [if_neg hp] at h
      cases h
  | succ n ih =>
    intro f c fs h
    unfold loopF at h
    by_cases hp : allPos f
    · rw [if_pos hp] at h
      cases h
      exact (allPos_iff f).mp hp
    · rw [if_neg hp] at h
      exact ih _ _ _ h

theorem loopF_negOne (n : ℕ) : ∀ c : ℕ, loopF (fun _ => (-1 : ℚ)) n [-1] c = none := by
  have hnp : ¬ allPos [-1] = true := by decide
  induction n with
  | zero =>
    intro c
    unfold loopF
    rw [if_neg hnp]
  | succ m ih =>
    intro c
    unfold loopF
    rw [if_neg hnp]
    have hfill : fillInvalid (fun _ => (-1 : ℚ)) [-1] c = ([-1], c + 1) := by
      norm_num [fillInvalid]
    rw [hfill]
    exact ih (c + 1)

/-! Claim theorems. -/

/-- C1: the claim states that every scale factor F actually used by the
variation step lies in (0,1].  The code is a slip against this intent: the
resample loop at lines 121-123 re-checks only `f <= 0`, so a fresh Cauchy
draw above 1 leaves the loop and is passed to the mutation operator.  With
the single initial draw 3 (zeroed by line 119) and a resample draw of 2,
the sampling step finishes with F = [2], which is greater than 1. -/
theorem lshade_c1_code_bug :
    sampleF (fun _ => 2) [3] 1 = some [2] ∧ ¬ ((2 : ℚ) ≤ 1) := by
  constructor
  · decide
  · norm_num

/-- C4: the claim states that the vectors appended to the archive are the
displaced parents.  But `selection` returns the post-selection population,
so `archive.extend(population[indexes])` at line 136 appends the winning
trial vectors: with parent [0] (fitness 5) and trial [7] (fitness 3), the
archived vector is [7], not the displaced parent [0]. -/
theorem lshade_c4_code_bug :
    archivedThisGen [[0]] [[7]] [5] [3] = [[7]] ∧
      ([[7]] : List (List ℚ)) ≠ [[0]] := by
  constructor
  · decide
  · decide

/-- C8: the claim states that a non-positive or non-integer
`max_evals_after_converge` (including None) never makes the run fail.  In
the source the guard `type(x) is not None` is always True, so `x <= 0` is
evaluated for every input: `None <= 0` raises a TypeError and `0 <= 0`
raises a ValueError, in both cases before the default-substitution at
lines 107-111 (whose value, `2 * individual_size`, is computed by
`initCountdown`) can run. -/
theorem lshade_c8_code_bug :
    checkMaxEvalsAfterConverge PyVal.none = Except.error PyErr.typeError ∧
    checkMaxEvalsAfterConverge (PyVal.int 0) = Except.error PyErr.valueError ∧
    initCountdown PyVal.none 7 = 14 :=
  ⟨rfl, rfl, rfl⟩

/-- C9: the claim states that the resample loop performs a bounded number of
iterations and signals a failure when a cap is exceeded.  The source loop
has no cap and no failure signal: on the draw stream that always returns
-1 the loop is still running (no value produced, no failure raised) after
1000 iterations. -/
theorem lshade_c9_counterexample :
    loopF (fun _ => (-1 : ℚ)) 1000 [-1] 0 = none :=
  loopF_negOne 1000 0

/-- C9 amended: the resample loop has no iteration cap and signals no
failure; it terminates exactly when every F entry has become positive — any
value it returns contains only positive entries — and on a draw stream that
keeps producing non-positive values it runs beyond every iteration count. -/
theorem lshade_c9_amended :
    (∀ (fuel : ℕ) (g : ℕ → ℚ) (f : List ℚ) (c : ℕ) (fs : List ℚ),
       loopF g fuel f c = some fs → ∀ x ∈ fs, 0 < x) ∧
    (∀ n c : ℕ, loopF (fun _ => (-1 : ℚ)) n [-1] c = none) :=
  ⟨fun fuel g f c fs h => loopF_pos g fuel f c fs h, fun n c => loopF_negOne n c⟩

/-- C9 witness: the amended theorem applied to a loop run that terminates at
once on the already-valid vector [1]. -/
theorem lshade_c9_witness :
    loopF (fun _ => (1 : ℚ)) 0 [1] 0 = some [1] ∧ (0 : ℚ) < 1 :=
  ⟨by decide, lshade_c9_amended.1 0 (fun _ => (1 : ℚ)) [1] 0 [1] (by decide) 1 (by simp)⟩

/-- C2: the claim states that after every memory update all CR-mem and F-mem
entries lie in [0,1].  The F half fails: a successful F value of 2 (which
the sampling step can produce, see the C1 theorem) with Δ = |5 - 3| = 2
makes the weighted Lehmer mean store 2 in F-mem, outside [0,1]. -/
theorem lshade_c2_counterexample :
    (updateMemory [5] [3] [0] [0] [2] [0] [some 0] 0).2 = [some 2] ∧
      ¬ ((2 : ℚ) ≤ 1) := by
  constructor
  · norm_num [updateMemory, wsum, wsumSq, lehmerWeights]
  · norm_num

/-- C2 amended: CR-mem entries always stay in [0,1] — the `np.isnan` guard
covers every degenerate denominator — while F-mem entries stay within
[0, B] for any bound B on the F values fed in; since used F values can
exceed 1 (C1), F-mem can leave [0,1], and its NaN case (weights with zero
sum, possible under the tie-accepting selection of the spec) is unguarded,
modelled by the `none` entry. -/
theorem lshade_c2_amended (fit cfit : List ℚ) (idxs : List ℕ) (cr f : List ℚ)
    (m_cr : List ℚ) (m_f : List (Option ℚ)) (k : ℕ) (B : ℚ) (hB : 0 ≤ B)
    (hcr : ∀ x ∈ cr, 0 ≤ x ∧ x ≤ 1)
    (hmcr : ∀ x ∈ m_cr, 0 ≤ x ∧ x ≤ 1)
    (hf : ∀ x ∈ f, 0 ≤ x ∧ x ≤ B)
    (hmf : ∀ o ∈ m_f, ∀ q : ℚ, o = some q → 0 ≤ q ∧ q ≤ B) :
    (∀ j : ℕ, 0 ≤ (updateMemory fit cfit idxs cr f m_cr m_f k).1.getD j 0 ∧
       (updateMemory fit cfit idxs cr f m_cr m_f k).1.getD j 0 ≤ 1) ∧
    (∀ (j : ℕ) (q : ℚ),
       (updateMemory fit cfit idxs cr f m_cr m_f k).2.getD j none = some q →
       0 ≤ q ∧ q ≤ B) := by
  have hw : ∀ a ∈ lehmerWeights fit cfit idxs, 0 ≤ a :=
    lehmerWeights_nonneg fit cfit idxs
  have hcrS : ∀ b ∈ idxs.map (fun i => cr.getD i 0), 0 ≤ b ∧ b ≤ 1 := by
    intro b hb
    rcases List.mem_map.mp hb with ⟨i, _, rfl⟩
    exact getD_prop cr i hcr ⟨le_refl 0, zero_le_one⟩
  have hfS : ∀ b ∈ idxs.map (fun i => f.getD i 0), 0 ≤ b ∧ b ≤ B := by
    intro b hb
    rcases List.mem_map.mp hb with ⟨i, _, rfl⟩
    exact getD_prop f i hf ⟨le_refl 0, hB⟩
  constructor
  · intro j
    refine @getD_prop (fun x => 0 ≤ x ∧ x ≤ 1) _ j ?_ ⟨le_refl 0, zero_le_one⟩
    intro x hx
    simp only [updateMemory] at hx
    rcases List.mem_or_eq_of_mem_set hx with h | h
    · exact hmcr x h
    · subst h
      by_cases hden : wsum (lehmerWeights fit cfit idxs) (idxs.map (fun i => cr.getD i 0)) = 0
      · rw [if_pos hden]
        exact ⟨zero_le_one, le_refl 1⟩
      · rw [if_neg hden]
        exact lehmer_bound _ _ 1 hw hcrS hden
  · intro j q hq
    refine @getD_opt_prop (fun r => 0 ≤ r ∧ r ≤ B) _ j ?_ q hq
    intro o ho q' hq'
    simp only [updateMemory] at ho
    rcases List.mem_or_eq_of_mem_set ho with h | h
    · exact hmf o h q' hq'
    · subst h
      by_cases hcond : (idxs.map (fun i => |fit.getD i 0 - cfit.getD i 0|)).sum = 0 ∨
          wsum (lehmerWeights fit cfit idxs) (idxs.map (fun i => f.getD i 0)) = 0
      · rw [if_pos hcond] at hq'
        cases hq'
      · rw [if_neg hcond] at hq'
        have hden : wsum (lehmerWeights fit cfit idxs) (idxs.map (fun i => f.getD i 0)) ≠ 0 :=
          fun h0 => hcond (Or.inr h0)
        have hval := lehmer_bound _ _ B hw hfS hden
        cases hq'
        exact hval

/-- C2 witness: the amended bounds applied to a concrete one-success update,
read back at memory slot 0. -/
theorem lshade_c2_witness :
    0 ≤ (updateMemory [5] [3] [0] [1] [1] [0] [some 1] 0).1.getD 0 0 ∧
    (updateMemory [5] [3] [0] [1] [1] [0] [some 1] 0).1.getD 0 0 ≤ 1 :=
  (lshade_c2_amended [5] [3] [0] [1] [1] [0] [some 1] 0 1 (by norm_num)
    (by intro x hx; simp at hx; subst hx; norm_num)
    (by intro x hx; simp at hx; subst hx; norm_num)
    (by intro x hx; simp at hx; subst hx; norm_num)
    (by intro o ho q hq; simp at ho; subst ho; simp at hq; subst hq; norm_num)).1 0

/-- C5: over any run the stagnation countdown is non-increasing and drops by
at most 1 per generation; a drop happens exactly when `precision` is a float
and `|np.min(fitness) - best_fitness| < precision` holds for the pre-update
`best_fitness`; the countdown never goes negative from a non-negative
start; and once it is at (or below) 0 the generation loop does not execute
again — the run terminates. -/
theorem lshade_c5_stagnation (p : PyVal) (g : ℕ → ℚ) (inc : ℕ → ℕ) (me : ℕ) :
    (∀ (minF : ℚ) (i : ℕ) (s : ConvState),
       (convStep p minF i s).countdown ≤ s.countdown ∧
       s.countdown - 1 ≤ (convStep p minF i s).countdown) ∧
    (∀ (minF : ℚ) (i : ℕ) (s : ConvState),
       (convStep p minF i s).countdown < s.countdown ↔
         (isFloat p = true ∧ |minF - s.best| < floatVal p)) ∧
    (∀ (fuel : ℕ) (s : ConvState), s.countdown ≤ 0 →
       convRun p g inc me fuel s = s) ∧
    (∀ (fuel : ℕ) (s : ConvState),
       (convRun p g inc me fuel s).countdown ≤ s.countdown) ∧
    (∀ (fuel : ℕ) (s : ConvState), 0 ≤ s.countdown →
       0 ≤ (convRun p g inc me fuel s).countdown) := by
  have hstep : ∀ (minF : ℚ) (i : ℕ) (s : ConvState),
      (convStep p minF i s).countdown ≤ s.countdown ∧
      s.countdown - 1 ≤ (convStep p minF i s).countdown := by
    intro minF i s
    simp only [convStep]
    split_ifs <;> omega
  refine ⟨hstep, ?_, ?_, ?_, ?_⟩
  · intro minF i s
    simp only [convStep]
    by_cases h : isFloat p = true ∧ |minF - s.best| < floatVal p
    · rw [if_pos h]
      exact iff_of_true (by omega) h
    · rw [if_neg h]
      exact iff_of_false (lt_irrefl _) h
  · intro fuel s h
    cases fuel with
    | zero => rfl
    | succ n =>
      unfold convRun
      rw [if_neg]
      intro hc
      omega
  · intro fuel
    induction fuel with
    | zero =>
      intro s
      exact le_refl _
    | succ n ih =>
      intro s
      unfold convRun
      by_cases h : s.numEvals < me ∧ 0 < s.countdown
      · rw [if_pos h]
        exact le_trans (ih _) (hstep _ _ _).1
      · rw [if_neg h]
  · intro fuel
    induction fuel with
    | zero =>
      intro s h
      exact h
    | succ n ih =>
      intro s h
      unfold convRun
      by_cases hg : s.numEvals < me ∧ 0 < s.countdown
      · rw [if_pos hg]
        apply ih
        have := (hstep (g s.gen) (inc s.gen) s).2
        omega
      · rw [if_neg hg]
        exact h

/-- C5 witness: a state whose countdown has reached 0 is returned unchanged
by the generation loop. -/
theorem lshade_c5_witness :
    convRun (PyVal.float 1) (fun _ => 0) (fun _ => 1) 10 5 ⟨3, 0, 2, 0⟩ = ⟨3, 0, 2, 0⟩ :=
  (lshade_c5_stagnation (PyVal.float 1) (fun _ => 0) (fun _ => 1) 10).2.2.1 5 ⟨3, 0, 2, 0⟩
    (le_refl 0)

/-- C10: when `precision` is not a Python float — e.g. the integer 1 — the
`isinstance(precision, float)` gate at line 166 is false, so the countdown
is never changed by any generation, and a loop exit from a state with a
positive countdown can only be due to `num_evals` reaching `max_evals`. -/
theorem lshade_c10_int_precision (p : PyVal) (hp : isFloat p = false)
    (g : ℕ → ℚ) (inc : ℕ → ℕ) (me : ℕ) :
    (∀ (minF : ℚ) (i : ℕ) (s : ConvState),
       (convStep p minF i s).countdown = s.countdown) ∧
    (∀ (fuel : ℕ) (s : ConvState),
       (convRun p g inc me fuel s).countdown = s.countdown) ∧
    (∀ (fuel : ℕ) (s : ConvState), 0 < s.countdown →
       ¬((convRun p g inc me fuel s).numEvals < me ∧
          0 < (convRun p g inc me fuel s).countdown) →
       me ≤ (convRun p g inc me fuel s).numEvals) := by
  have hstep : ∀ (minF : ℚ) (i : ℕ) (s : ConvState),
      (convStep p minF i s).countdown = s.countdown := by
    intro minF i s
    simp only [convStep]
    rw [if_neg]
    intro hc
    rw [hp] at hc
    exact Bool.false_ne_true hc.1
  have hrun : ∀ (fuel : ℕ) (s : ConvState),
      (convRun p g inc me fuel s).countdown = s.countdown := by
    intro fuel
    induction fuel with
    | zero =>
      intro s
      rfl
    | succ n ih =>
      intro s
      unfold convRun
      by_cases hg : s.numEvals < me ∧ 0 < s.countdown
      · rw [if_pos hg, ih, hstep]
      · rw [if_neg hg]
  refine ⟨hstep, hrun, ?_⟩
  intro fuel s h hg
  rcases not_and_or.mp hg with hn | hc
  · exact le_of_not_lt hn
  · rw [hrun fuel s] at hc
    exact absurd h hc

/-- C10 witness: a run with integer precision 1 and countdown 5 stops only
once the evaluation budget 3 is consumed. -/
theorem lshade_c10_witness :
    3 ≤ (convRun (PyVal.int 1) (fun _ => 0) (fun _ => 2) 3 10 ⟨0, 5, 0, 0⟩).numEvals :=
  (lshade_c10_int_precision (PyVal.int 1) rfl (fun _ => 0) (fun _ => 2) 3).2.2 10
    ⟨0, 5, 0, 0⟩ (by norm_num) (by decide)

/-- C6: the claim states the population size is non-increasing AND stays ≥ 4
until termination.  The second half fails: `num_evals` is incremented before
the shrink computation, so in the final generation it can exceed
`max_evals` and the schedule extrapolates past its floor.  From a run with
`population_size = init_size = 10` and `max_evals = 11`, generation 1 ends
with `num_evals = 20` and `round((4-10)/11*20+10) = -1`, which the shrink
assigns as the population size. -/
theorem lshade_c6_counterexample :
    (adaptStep takeSample stateC6).population_size = -1 ∧
    (adaptStep takeSample stateC6).population_size < 4 := by
  have h : (adaptStep takeSample stateC6).population_size = -1 := by
    norm_num [stateC6, adaptStep, targetSize, pyRound, updateMemory, wsum, wsumSq,
      lehmerWeights, writeBack, argsort, insertArg, pySlice, takeSample]
  refine ⟨h, ?_⟩
  rw [h]
  norm_num

/-- C6 amended: the population size after a generation is exactly
`min` of the old size and the schedule target (so it is non-increasing, and
shrinks exactly when the target is strictly smaller); it stays ≥ 4 provided
the evaluation counter has not overrun the budget at the shrink
computation — the guarantee that fails only in the final generation. -/
theorem lshade_c6_amended (sample : List (List ℚ) → ℕ → List (List ℚ))
    (s : AdaptState) :
    (adaptStep sample s).population_size =
      min s.population_size (targetSize s.init_size s.max_evals s.num_evals) ∧
    (4 ≤ s.population_size → 4 ≤ s.init_size → s.num_evals ≤ s.max_evals →
      0 < s.max_evals → 4 ≤ (adaptStep sample s).population_size) := by
  have h1 : (adaptStep sample s).population_size =
      min s.population_size (targetSize s.init_size s.max_evals s.num_evals) := by
    simp only [adaptStep]
    by_cases h : targetSize s.init_size s.max_evals s.num_evals < s.population_size
    · rw [if_pos h]
      exact (min_eq_right h.le).symm
    · rw [if_neg h]
      exact (min_eq_left (le_of_not_lt h)).symm
  refine ⟨h1, ?_⟩
  intro hP hI hne hme
  rw [h1]
  exact le_min hP (targetSize_ge_four s.init_size s.max_evals s.num_evals hI hme hne)

/-- C6 witness: the amended bound applied to a mid-run state with half the
budget consumed. -/
theorem lshade_c6_witness :
    4 ≤ (adaptStep takeSample stateC6w).population_size :=
  (lshade_c6_amended takeSample stateC6w).2 (by norm_num [stateC6w])
    (by norm_num [stateC6w]) (by norm_num [stateC6w]) (by norm_num [stateC6w])

/-- C3: the claim states the archive length is at most the population size
at the end of every generation, including after a shrink.  It fails because
the shrink never re-trims the archive (and the capacity enforcement runs
only on generations with successes): from a run state with a full archive
of 5, an empty success set and a shrink from 5 to 4, the generation ends
with 5 archived vectors and population size 4. -/
theorem lshade_c3_counterexample :
    (adaptStep takeSample stateC3).population_size = 4 ∧
    (adaptStep takeSample stateC3).archive.length = 5 ∧
    ¬ (((adaptStep takeSample stateC3).archive.length : ℤ) ≤
        (adaptStep takeSample stateC3).population_size) := by
  have h1 : (adaptStep takeSample stateC3).population_size = 4 := by
    norm_num [stateC3, adaptStep, targetSize, pyRound, updateMemory, wsum, wsumSq,
      lehmerWeights, writeBack, argsort, insertArg, pySlice, takeSample]
  have h2 : (adaptStep takeSample stateC3).archive.length = 5 := by
    norm_num [stateC3, adaptStep, targetSize, pyRound, updateMemory, wsum, wsumSq,
      lehmerWeights, writeBack, argsort, insertArg, pySlice, takeSample]
  refine ⟨h1, h2, ?_⟩
  rw [h1, h2]
  norm_num

/-- C3 amended: on a generation with a non-empty success set (the only case
in which the source enforces capacity) the archive length after the
generation is bounded by the population size *before* that generation's
shrink; after the shrink the bound can fail, as the counterexample shows. -/
theorem lshade_c3_amended (sample : List (List ℚ) → ℕ → List (List ℚ))
    (s : AdaptState)
    (hs : ∀ (l : List (List ℚ)) (n : ℕ), (sample l n).length = min n l.length)
    (hne : s.indexes ≠ []) (hP : 0 ≤ s.population_size) :
    ((adaptStep sample s).archive).length ≤ s.population_size.toNat := by
  have hlen : 0 < s.indexes.length := List.length_pos.mpr hne
  have harch : (adaptStep sample s).archive =
      (let archive1 := s.archive ++ s.indexes.map (fun i => s.population.getD i [])
       if s.population_size < (archive1.length : ℤ) then
         sample archive1 s.population_size.toNat
       else archive1) := by
    simp only [adaptStep, if_pos hlen]
    by_cases h : targetSize s.init_size s.max_evals s.num_evals < s.population_size
    · rw [if_pos h]
    · rw [if_neg h]
  rw [harch]
  by_cases hcap : s.population_size <
      ((s.archive ++ s.indexes.map (fun i => s.population.getD i [])).length : ℤ)
  · rw [if_pos hcap, hs]
    exact min_le_left _ _
  · rw [if_neg hcap]
    omega

/-- C3 witness: the amended bound applied to a one-success generation. -/
theorem lshade_c3_witness :
    ((adaptStep takeSample stateC3w).archive).length ≤ Int.toNat 3 :=
  lshade_c3_amended takeSample stateC3w
    (fun l n => List.length_take n l) (by simp [stateC3w]) (by norm_num [stateC3w])

/-- C7: the claim states that a generation with an empty success set leaves
the memory arrays and the cursor k unchanged.  The memory arrays are indeed
untouched, but the `if k == init_size: k = 0` guard at line 160 runs on
every shrink regardless of the success set: in a run with `init_size = 5`
and `memory_size = 10`, a success-free generation whose shrink fires while
`k = 5` resets the cursor to 0. -/
theorem lshade_c7_counterexample :
    stateC7.indexes = [] ∧ stateC7.k = 5 ∧ (adaptStep takeSample stateC7).k = 0 := by
  refine ⟨rfl, rfl, ?_⟩
  norm_num [stateC7, adaptStep, targetSize, pyRound, updateMemory, wsum, wsumSq,
    lehmerWeights, writeBack, argsort, insertArg, pySlice, takeSample]

/-- C7 amended: with an empty success set the memory arrays are unchanged,
and the cursor is unchanged unless the generation shrinks the population
while the cursor equals the initial population size, in which case the
legacy guard resets it to 0. -/
theorem lshade_c7_amended (sample : List (List ℚ) → ℕ → List (List ℚ))
    (s : AdaptState) (h : s.indexes = []) :
    (adaptStep sample s).m_cr = s.m_cr ∧
    (adaptStep sample s).m_f = s.m_f ∧
    (adaptStep sample s).k =
      (if targetSize s.init_size s.max_evals s.num_evals < s.population_size ∧
          (s.k : ℤ) = s.init_size then 0 else s.k) := by
  have hlen : ¬ 0 < s.indexes.length := by
    rw [h]
    simp
  simp only [adaptStep, if_neg hlen]
  by_cases ht : targetSize s.init_size s.max_evals s.num_evals < s.population_size
  · rw [if_pos ht]
    refine ⟨rfl, rfl, ?_⟩
    by_cases hk : (s.k : ℤ) = s.init_size
    · rw [if_pos hk, if_pos ⟨ht, hk⟩]
    · rw [if_neg hk, if_neg (fun hc => hk hc.2)]
  · rw [if_neg ht]
    refine ⟨rfl, rfl, ?_⟩
    rw [if_neg (fun hc => ht hc.1)]

/-- C7 witness: the amended frame property applied to a success-free
generation whose cursor is away from the initial population size. -/
theorem lshade_c7_witness :
    (adaptStep takeSample stateC7w).m_cr = stateC7w.m_cr ∧
    (adaptStep takeSample stateC7w).m_f = stateC7w.m_f ∧
    (adaptStep takeSample stateC7w).k =
      (if targetSize stateC7w.init_size stateC7w.max_evals stateC7w.num_evals <
          stateC7w.population_size ∧ (stateC7w.k : ℤ) = stateC7w.init_size
       then 0 else stateC7w.k) :=
  lshade_c7_amended takeSample stateC7w rfl
